import Mathlib

/-!
# Snake game on a linked list: the game-state engine of `src/main.cpp`

A shallow embedding of the core of the program: the globals (`dir`,
`difficulty`, `head`, `foodX`, `foodY`, `gameOver`, `score`, `level`) become one
record that is passed explicitly, the singly linked list rooted at `head`
becomes a `List Node` (head first), `rand()` becomes a list of values that the
food placement loop consumes, and stdin becomes a list of characters that the
input polls consume.

`int` arithmetic is `Int` arithmetic followed by `wrapInt32` (two's complement
on 32 bits) at every `++`, `--`, `+=`, `-` and `*` of the source; in the states
a round can reach no such operation leaves the 32-bit range (see `Inv_logic`).
The globals `tail`, `walls` and `highScore` are never read by the functions
embedded here and are left out.
-/

namespace Snake

/-! ## Constants and enumerations (main.cpp, lines 12-15) -/

/-- `const int WIDTH = 20;` -/
def WIDTH : Int := 20

/-- `const int HEIGHT = 20;` -/
def HEIGHT : Int := 20

/-- `enum Direction { STOP = 0, LEFT, RIGHT, UP, DOWN };` -/
inductive Direction where
  | STOP
  | LEFT
  | RIGHT
  | UP
  | DOWN
deriving DecidableEq

/-- `enum Difficulty { EASY = 1, NORMAL = 2, HARD = 3 };` -/
inductive Difficulty where
  | EASY
  | NORMAL
  | HARD
deriving DecidableEq

/-- The payload of `struct Node`; the `next` pointer is the list structure. -/
structure Node where
  x : Int
  y : Int
deriving DecidableEq

/-- The globals of the program that the game engine reads or writes. -/
structure State where
  dir : Direction
  difficulty : Difficulty
  head : List Node
  foodX : Int
  foodY : Int
  gameOver : Bool
  score : Int
  level : Int
deriving DecidableEq

/-- What a call of a function of the program comes to.
* `returned st rest`: the call returned with globals `st`, the unread random
  values are `rest`;
* `looping st`: the `do ... while` of `placeFood` has used up every random value
  it was given and has not found a free cell yet; `st` holds the globals at that
  point;
* `nullDeref`: the call dereferenced a null pointer. -/
inductive Result where
  | returned (st : State) (rest : List (Nat × Nat))
  | looping (st : State)
  | nullDeref
deriving DecidableEq

/-- The globals a call leaves behind, when it did not fault. -/
def Result.globals : Result → Option State
  | .returned st _ => some st
  | .looping st => some st
  | .nullDeref => none

/-- Two's complement value of a 32-bit `int` computation. -/
def wrapInt32 (v : Int) : Int :=
  (v + 2147483648) % 4294967296 - 2147483648

/-! ## isOnSnake and placeFood (main.cpp, lines 106-121) -/

/-- The scan `while (temp) { if (temp->x == x && temp->y == y) return true; ... }`
started at a given node. -/
def isOnSnakeFrom : List Node → Int → Int → Bool
  | [], _, _ => false
  | temp :: next, x, y =>
    if temp.x = x ∧ temp.y = y then true else isOnSnakeFrom next x y

/-- `bool isOnSnake(int x, int y)`, with the global `head` as first argument. -/
def isOnSnake (head : List Node) (x y : Int) : Bool :=
  isOnSnakeFrom head x y

/-- `void placeFood()`: each pair of the list is the two values `rand()` returns
in one pass of the loop body; the pass writes `foodX` and `foodY`, and the loop
goes on while that cell is on the snake. -/
def placeFood (st : State) : List (Nat × Nat) → Result
  | [] => .looping st
  | (r1, r2) :: rest =>
    let st1 := { st with foodX := (r1 : Int) % WIDTH, foodY := (r2 : Int) % HEIGHT }
    if isOnSnake st1.head st1.foodX st1.foodY then placeFood st1 rest
    else .returned st1 rest

/-! ## Setup (main.cpp, lines 83-97) -/

/-- `void Setup()`: `prev` holds the globals before the call (only `difficulty`,
`foodX` and `foodY` survive the resets). -/
def Setup (prev : State) (samples : List (Nat × Nat)) : Result :=
  placeFood
    { prev with
      dir := .RIGHT
      gameOver := false
      score := 0
      level := 1
      head := [⟨WIDTH / 2, 5⟩] }
    samples

/-! ## Input (main.cpp, lines 168-196) -/

/-- `void Input()`: `stdin` is what is waiting on standard input at the poll;
`kbhit()` is true when it is not empty. The result is `none` when the blocking
`getchar()` after `ESC [` finds nothing to read. -/
def Input (st : State) (stdin : List Char) : Option (State × List Char) :=
  match stdin with
  | [] => some (st, [])
  | ch :: rest =>
    if ch = 'a' ∨ ch = 'A' then
      some (if st.dir ≠ .RIGHT then { st with dir := .LEFT } else st, rest)
    else if ch = 'd' ∨ ch = 'D' then
      some (if st.dir ≠ .LEFT then { st with dir := .RIGHT } else st, rest)
    else if ch = 'w' ∨ ch = 'W' then
      some (if st.dir ≠ .DOWN then { st with dir := .UP } else st, rest)
    else if ch = 's' ∨ ch = 'S' then
      some (if st.dir ≠ .UP then { st with dir := .DOWN } else st, rest)
    else if ch = 'x' ∨ ch = 'X' then
      some ({ st with gameOver := true }, rest)
    else if ch = Char.ofNat 27 then
      match rest with
      | [] => some (st, [])
      | ch2 :: rest2 =>
        if ch2 = '[' then
          match rest2 with
          | [] => none
          | ch3 :: rest3 =>
            if ch3 = 'A' then
              some (if st.dir ≠ .DOWN then { st with dir := .UP } else st, rest3)
            else if ch3 = 'B' then
              some (if st.dir ≠ .UP then { st with dir := .DOWN } else st, rest3)
            else if ch3 = 'C' then
              some (if st.dir ≠ .LEFT then { st with dir := .RIGHT } else st, rest3)
            else if ch3 = 'D' then
              some (if st.dir ≠ .RIGHT then { st with dir := .LEFT } else st, rest3)
            else some (st, rest3)
        else some (st, rest2)
    else some (st, rest)

/-! ## Logic (main.cpp, lines 199-243) -/

/-- Lines 202-217 of `Logic`: the new head position computed from the head
position `(hx, hy)`: the `switch (dir)` followed by the four bounds checks. -/
def candidate (dir : Direction) (hx hy : Int) : Int × Int :=
  let moved : Int × Int :=
    match dir with
    | .LEFT => (wrapInt32 (hx - 1), hy)
    | .RIGHT => (wrapInt32 (hx + 1), hy)
    | .UP => (hx, wrapInt32 (hy - 1))
    | .DOWN => (hx, wrapInt32 (hy + 1))
    | .STOP => (hx, hy)
  let newX := moved.1
  let newY := moved.2
  let newX := if newX < 0 then WIDTH - 1 else newX
  let newX := if newX ≥ WIDTH then 0 else newX
  let newY := if newY < 0 then HEIGHT - 1 else newY
  let newY := if newY ≥ HEIGHT then 0 else newY
  (newX, newY)

/-- The loop `while (curr->next) { prev = curr; curr = curr->next; }` of lines
236-239 followed by `delete curr; prev->next = nullptr;`. `front` holds the
nodes before `prev`, `curr` is the current node and the last argument the nodes
after it. The result is the list that remains, or `none` when `prev` is still
null at `prev->next = nullptr`. -/
def tailScan (front : List Node) (prev : Option Node) (curr : Node) :
    List Node → Option (List Node)
  | [] =>
    match prev with
    | none => none
    | some p => some (front ++ [p])
  | next :: after => tailScan (front ++ prev.toList) (some curr) next after

/-- Lines 234-241 of `Logic`, started with `prev = nullptr; curr = head;`. On an
empty list `curr->next` already dereferences null. -/
def removeTail : List Node → Option (List Node)
  | [] => none
  | curr :: after => tailScan [] none curr after

/-- `void Logic()`. -/
def Logic (st : State) (samples : List (Nat × Nat)) : Result :=
  if st.dir = .STOP then .returned st samples
  else
    match st.head with
    | [] => .nullDeref
    | h :: _ =>
      let c := candidate st.dir h.x h.y
      let newX := c.1
      let newY := c.2
      if isOnSnake st.head newX newY then
        .returned { st with gameOver := true } samples
      else
        let st1 := { st with head := ⟨newX, newY⟩ :: st.head }
        if newX = st1.foodX ∧ newY = st1.foodY then
          let st2 := { st1 with score := wrapInt32 (st1.score + 10) }
          let st3 :=
            if st2.score % 50 = 0 then { st2 with level := wrapInt32 (st2.level + 1) }
            else st2
          placeFood st3 samples
        else
          match removeTail st1.head with
          | none => .nullDeref
          | some l => .returned { st1 with head := l } samples

/-! ## The round loop of main (main.cpp, lines 328-350) -/

/-- The loop `for (int i = 0; i < 10; i++) { Input(); usleep(10000); }` with its
bound as first argument. -/
def inputPolls : Nat → State → List Char → Option (State × List Char)
  | 0, st, stdin => some (st, stdin)
  | n + 1, st, stdin =>
    match Input st stdin with
    | none => none
    | some (st1, rest) => inputPolls n st1 rest

/-- One pass of the body of `while (!gameOver)`: ten input polls, then `Logic`.
The result is `none` when an input poll blocks; otherwise it carries what
`Logic` came to and what is left on standard input. -/
def roundIteration (st : State) (stdin : List Char) (samples : List (Nat × Nat)) :
    Option (Result × List Char) :=
  match inputPolls 10 st stdin with
  | none => none
  | some (st1, rest) => some (Logic st1 samples, rest)

/-- The loop `while (!gameOver) { ... }`: the first argument lists, pass by pass,
the characters that have arrived on standard input since the pass before. The
loop is followed for as many passes as the list describes. -/
def roundLoop : List (List Char) → State → List Char → List (Nat × Nat) → Option Result
  | [], st, _, samples => some (.returned st samples)
  | keys :: more, st, pending, samples =>
    if st.gameOver then some (.returned st samples)
    else
      match roundIteration st (pending ++ keys) samples with
      | none => none
      | some (.returned st1 rest, left) => roundLoop more st1 left rest
      | some (r, _) => some r

/-- `Setup();` followed by the round loop, as in `main`. -/
def playRound (prev : State) (ticks : List (List Char)) (samples : List (Nat × Nat)) :
    Option Result :=
  match Setup prev samples with
  | .returned st rest => roundLoop ticks st [] rest
  | r => some r

/-- The globals when the program starts (the initialisers of lines 16-30;
`dir`, `foodX` and `foodY` are zero-initialised). -/
def initial : State :=
  { dir := .STOP, difficulty := .NORMAL, head := [], foodX := 0, foodY := 0,
    gameOver := false, score := 0, level := 1 }

/-! ## The tick interval (main.cpp, lines 333-349) -/

/-- The `switch (difficulty)` of lines 343-347. -/
def baseSpeed : Difficulty → Int
  | .EASY => 800000
  | .NORMAL => 500000
  | .HARD => 300000

/-- `int speedIncrease = (level - 1) * 10000;` -/
def speedIncrease (level : Int) : Int :=
  wrapInt32 (wrapInt32 (level - 1) * 10000)

/-- The `int` value of the argument of the last `usleep` of the loop body:
`baseSpeed - speedIncrease - 100000`. -/
def usleepArgument (d : Difficulty) (level : Int) : Int :=
  wrapInt32 (wrapInt32 (baseSpeed d - speedIncrease level) - 100000)

/-- The conversion of an `int` to the parameter type of `usleep`, `useconds_t`
(an unsigned 32-bit integer): the number of microseconds `usleep` is asked to
sleep. -/
def toUseconds (v : Int) : Nat :=
  (v % 4294967296).toNat

/-- Microseconds that one pass of the round loop asks `usleep` for: ten calls
`usleep(10000)` and the call `usleep(baseSpeed - speedIncrease - 100000)`. -/
def roundSleepMicros (d : Difficulty) (level : Int) : Nat :=
  10 * toUseconds 10000 + toUseconds (usleepArgument d level)

/-! ## A round that fills the grid -/

/-- The cell number `k` of a path through all 400 cells that starts at the
start cell `(10, 5)`: twenty cells to the right along a row (wrapping at the
border), then one cell down, and so on. -/
def pathCell (k : Nat) : Nat × Nat :=
  ((30 - k / 20 + k % 20) % 20, (5 + k / 20) % 20)

/-- Random values that put the food on cells `1, ..., n` of the path. -/
def pathSamples (n : Nat) : List (Nat × Nat) :=
  (List.range n).map fun i => pathCell (i + 1)

/-- The key pressed before move number `j` along the path: `s` before the move
into a new row, `d` before the move after it, nothing otherwise. -/
def pathKey (j : Nat) : List Char :=
  if j % 20 = 0 then ['s'] else if j % 20 = 1 ∧ 1 < j then ['d'] else []

/-- Key presses that steer the snake along the path for `n` passes of the
round loop. -/
def pathKeys (n : Nat) : List (List Char) :=
  (List.range n).map fun i => pathKey (i + 1)

/-- The node on cell `k` of the path. -/
def pathNode (k : Nat) : Node :=
  ⟨((pathCell k).1 : Int), ((pathCell k).2 : Int)⟩

/-- The snake that lies on cells `0, ..., k` of the path, head on cell `k`. -/
def pathSnake : Nat → List Node
  | 0 => [pathNode 0]
  | k + 1 => pathNode (k + 1) :: pathSnake k

/-- The direction of move number `k` along the path (RIGHT before any move). -/
def pathDir (k : Nat) : Direction :=
  if k % 20 = 0 ∧ 0 < k then .DOWN else .RIGHT

/-- The globals after `k` moves along the path, each of which ate the food:
the food is on the next cell of the path. -/
def pathState (k : Nat) : State :=
  { dir := pathDir k, difficulty := .NORMAL, head := pathSnake k,
    foodX := ((pathCell (k + 1)).1 : Int), foodY := ((pathCell (k + 1)).2 : Int),
    gameOver := false, score := 10 * (k : Int), level := 1 + 10 * (k : Int) / 50 }

/-! ## Reachable states -/

/-- Lines 220 and 229 of `Logic` taken together: the move eats the food when
the new head position is not on the snake and equals the food position. -/
def eatsFood (st : State) (newX newY : Int) : Bool :=
  !isOnSnake st.head newX newY && (newX == st.foodX && newY == st.foodY)

/-- The states of the globals that a round can be in between two calls: the
state `Setup` returns with, and every state that a call of `Input` or of `Logic`
returns with from such a state. -/
inductive Reachable : State → Prop
  | setup (prev : State) (samples : List (Nat × Nat)) (st : State) (rest : List (Nat × Nat)) :
      Setup prev samples = .returned st rest → Reachable st
  | input (st : State) (stdin : List Char) (st1 : State) (rest : List Char) :
      Reachable st → Input st stdin = some (st1, rest) → Reachable st1
  | logic (st : State) (samples : List (Nat × Nat)) (st1 : State) (rest : List (Nat × Nat)) :
      Reachable st → Logic st samples = .returned st1 rest → Reachable st1

/-- A cell of the 20 x 20 grid. -/
def inGrid (x y : Int) : Prop :=
  0 ≤ x ∧ x < WIDTH ∧ 0 ≤ y ∧ y < HEIGHT

/-- What holds in every reachable state. -/
structure Inv (st : State) : Prop where
  nonempty : st.head ≠ []
  nodup : st.head.Nodup
  cells : ∀ n ∈ st.head, inGrid n.x n.y
  score_eq : st.score = 10 * ((st.head.length : Int) - 1)
  level_eq : st.level = 1 + st.score / 50
  dir_ne : st.dir ≠ .STOP
  food_grid : inGrid st.foodX st.foodY
  food_free : isOnSnake st.head st.foodX st.foodY = false

/-- Two states that differ at most in the food position. -/
def SameButFood (st st1 : State) : Prop :=
  st1.head = st.head ∧ st1.score = st.score ∧ st1.level = st.level ∧ st1.dir = st.dir ∧
    st1.gameOver = st.gameOver ∧ st1.difficulty = st.difficulty

/-- A result of `Input` that changed at most `dir` (to a direction other than
`STOP`) and `gameOver`. -/
def InputGood (st : State) (r : Option (State × List Char)) : Prop :=
  ∀ st1 rest, r = some (st1, rest) →
    ∃ d g, st1 = { st with dir := d, gameOver := g } ∧ (d = st.dir ∨ d ≠ .STOP)

/-- The neighbour of the cell `(x, y)` on the 20 x 20 torus in a direction, as
the specification describes it: one step along the axis, modulo the axis
length. -/
def torusNeighbour (dir : Direction) (x y : Int) : Int × Int :=
  match dir with
  | .LEFT => ((x - 1) % 20, y)
  | .RIGHT => ((x + 1) % 20, y)
  | .UP => (x, (y - 1) % 20)
  | .DOWN => (x, (y + 1) % 20)
  | .STOP => (x, y)

/-- The base interval of the specification, in milliseconds: Easy 800, Normal
500, Hard 300. -/
def baseMillis : Difficulty → Int
  | .EASY => 800
  | .NORMAL => 500
  | .HARD => 300

/-! ## Example states -/

/-- The globals after `Setup` when `rand()` returns 11 and 5: the snake is the
start cell and the food is on the cell to its right. -/
def afterSetup : State :=
  { dir := .RIGHT, difficulty := .NORMAL, head := [⟨10, 5⟩], foodX := 11, foodY := 5,
    gameOver := false, score := 0, level := 1 }

/-- The globals after the first move to the right from `afterSetup`, which eats
the food, when `rand()` then returns 12 and 5. -/
def afterMeal : State :=
  { dir := .RIGHT, difficulty := .NORMAL, head := [⟨11, 5⟩, ⟨10, 5⟩], foodX := 12, foodY := 5,
    gameOver := false, score := 10, level := 1 }

/-- The globals `afterMeal` once the keys `w` and `a` have been read. -/
def afterKeys : State :=
  { afterMeal with dir := .LEFT }

/-- A snake of two nodes that moves LEFT into its own second node. -/
def facingItself : State :=
  { dir := .LEFT, difficulty := .NORMAL, head := [⟨6, 5⟩, ⟨5, 5⟩], foodX := 0, foodY := 0,
    gameOver := false, score := 10, level := 1 }

/-- The globals after five moves along the path, each of which eats the food. -/
def afterFiveMeals : State :=
  { dir := .RIGHT, difficulty := .NORMAL,
    head := [⟨15, 5⟩, ⟨14, 5⟩, ⟨13, 5⟩, ⟨12, 5⟩, ⟨11, 5⟩, ⟨10, 5⟩],
    foodX := 16, foodY := 5, gameOver := false, score := 50, level := 2 }

/-! ## Lemmas on the list operations -/

theorem isOnSnake_eq_true_iff (l : List Node) (x y : Int) :
    isOnSnake l x y = true ↔ (⟨x, y⟩ : Node) ∈ l := by
  unfold isOnSnake
  induction l with
  | nil => simp [isOnSnakeFrom]
  | cons n l ih =>
    obtain ⟨nx, ny⟩ := n
    by_cases h : nx = x ∧ ny = y
    · simp [isOnSnakeFrom, h]
    · have h2 : ¬ (x = nx ∧ y = ny) := fun h3 => h ⟨h3.1.symm, h3.2.symm⟩
      simp [isOnSnakeFrom, h, ih, h2]

theorem isOnSnake_eq_false_iff (l : List Node) (x y : Int) :
    isOnSnake l x y = false ↔ (⟨x, y⟩ : Node) ∉ l := by
  rw [← isOnSnake_eq_true_iff]
  cases isOnSnake l x y <;> simp

theorem tailScan_some (after : List Node) :
    ∀ (front : List Node) (p curr : Node),
      tailScan front (some p) curr after = some (front ++ p :: (curr :: after).dropLast) := by
  induction after with
  | nil => intro front p curr; simp [tailScan]
  | cons n after ih =>
    intro front p curr
    simp [tailScan, ih, List.dropLast]

theorem removeTail_cons_cons (a b : Node) (l : List Node) :
    removeTail (a :: b :: l) = some (a :: (b :: l).dropLast) := by
  simp [removeTail, tailScan, tailScan_some]

theorem removeTail_cons_of_ne_nil (c : Node) (l : List Node) (h : l ≠ []) :
    removeTail (c :: l) = some (c :: l.dropLast) := by
  cases l with
  | nil => exact absurd rfl h
  | cons b l => exact removeTail_cons_cons c b l

theorem candidate_inGrid (dir : Direction) (hx hy : Int) :
    inGrid (candidate dir hx hy).1 (candidate dir hx hy).2 := by
  unfold inGrid
  cases dir <;> simp only [candidate, wrapInt32, WIDTH, HEIGHT] <;>
    (refine ⟨?_, ?_, ?_, ?_⟩ <;> split_ifs <;> omega)

/-! ## Lemmas on placeFood -/

theorem sample_inGrid (r1 r2 : Nat) : inGrid ((r1 : Int) % WIDTH) ((r2 : Int) % HEIGHT) := by
  unfold inGrid WIDTH HEIGHT
  omega

theorem placeFood_globals (samples : List (Nat × Nat)) :
    ∀ st : State, ∃ st1, (placeFood st samples).globals = some st1 ∧ SameButFood st st1 := by
  induction samples with
  | nil => intro st; exact ⟨st, rfl, rfl, rfl, rfl, rfl, rfl, rfl⟩
  | cons q samples ih =>
    intro st
    obtain ⟨r1, r2⟩ := q
    simp only [placeFood]
    split_ifs with h
    · obtain ⟨st1, h1, h2⟩ := ih { st with foodX := (r1 : Int) % WIDTH, foodY := (r2 : Int) % HEIGHT }
      exact ⟨st1, h1, h2⟩
    · exact ⟨_, rfl, rfl, rfl, rfl, rfl, rfl, rfl⟩

theorem placeFood_returned (samples : List (Nat × Nat)) :
    ∀ (st st1 : State) (rest : List (Nat × Nat)),
      placeFood st samples = .returned st1 rest →
        SameButFood st st1 ∧ inGrid st1.foodX st1.foodY ∧
          isOnSnake st1.head st1.foodX st1.foodY = false ∧
          ∃ pre r1 r2, samples = pre ++ (r1, r2) :: rest ∧
            (∀ q ∈ pre, isOnSnake st.head ((q.1 : Int) % WIDTH) ((q.2 : Int) % HEIGHT) = true) ∧
            st1.foodX = (r1 : Int) % WIDTH ∧ st1.foodY = (r2 : Int) % HEIGHT := by
  induction samples with
  | nil => intro st st1 rest h; simp [placeFood] at h
  | cons q samples ih =>
    intro st st1 rest h
    obtain ⟨r1, r2⟩ := q
    simp only [placeFood] at h
    split_ifs at h with hon
    · obtain ⟨hsame, hgrid, hfree, pre, a, b, hs, hpre, hx, hy⟩ := ih _ st1 rest h
      refine ⟨hsame, hgrid, hfree, (r1, r2) :: pre, a, b, by simp [hs], ?_, hx, hy⟩
      intro q hq
      rcases List.mem_cons.1 hq with rfl | hq
      · exact hon
      · exact hpre q hq
    · simp only [Result.returned.injEq] at h
      obtain ⟨rfl, rfl⟩ := h
      refine ⟨⟨rfl, rfl, rfl, rfl, rfl, rfl⟩, sample_inGrid r1 r2, ?_, [], r1, r2, rfl, ?_, rfl, rfl⟩
      · simpa using hon
      · intro q hq; simp at hq

theorem placeFood_of_free (samples : List (Nat × Nat)) :
    ∀ st : State,
      (∃ q ∈ samples, isOnSnake st.head ((q.1 : Int) % WIDTH) ((q.2 : Int) % HEIGHT) = false) →
        ∃ st1 rest, placeFood st samples = .returned st1 rest := by
  induction samples with
  | nil => intro st h; simp at h
  | cons q samples ih =>
    intro st h
    obtain ⟨r1, r2⟩ := q
    simp only [placeFood]
    split_ifs with hon
    · apply ih
      obtain ⟨q, hq, hfree⟩ := h
      rcases List.mem_cons.1 hq with rfl | hq
      · simp only at hon hfree
        rw [hon] at hfree
        exact absurd hfree (by simp)
      · exact ⟨q, hq, hfree⟩
    · exact ⟨_, _, rfl⟩

theorem placeFood_full (samples : List (Nat × Nat)) :
    ∀ st : State, (∀ x y, inGrid x y → isOnSnake st.head x y = true) →
      ∃ st1, placeFood st samples = .looping st1 ∧ SameButFood st st1 := by
  induction samples with
  | nil => intro st _; exact ⟨st, rfl, rfl, rfl, rfl, rfl, rfl, rfl⟩
  | cons q samples ih =>
    intro st h
    obtain ⟨r1, r2⟩ := q
    simp only [placeFood]
    rw [if_pos (h _ _ (sample_inGrid r1 r2))]
    obtain ⟨st1, h1, h2⟩ := ih { st with foodX := (r1 : Int) % WIDTH, foodY := (r2 : Int) % HEIGHT } h
    exact ⟨st1, h1, h2⟩

/-! ## Lemmas on Logic and Input -/

theorem wrapInt32_eq (v : Int) (h1 : -2147483648 ≤ v) (h2 : v < 2147483648) :
    wrapInt32 v = v := by
  unfold wrapInt32
  omega

theorem Logic_blocked_eq (st : State) (h : Node) (t : List Node) (samples : List (Nat × Nat))
    (hhead : st.head = h :: t) (hdir : st.dir ≠ .STOP)
    (hon : isOnSnake st.head (candidate st.dir h.x h.y).1 (candidate st.dir h.x h.y).2 = true) :
    Logic st samples = .returned { st with gameOver := true } samples := by
  unfold Logic
  rw [if_neg hdir]
  simp only [hhead] at hon ⊢
  rw [if_pos hon]

theorem Logic_eat_eq (st : State) (h : Node) (t : List Node) (samples : List (Nat × Nat))
    (hhead : st.head = h :: t) (hdir : st.dir ≠ .STOP)
    (hfree : isOnSnake st.head (candidate st.dir h.x h.y).1 (candidate st.dir h.x h.y).2 = false)
    (hfood : (candidate st.dir h.x h.y).1 = st.foodX ∧ (candidate st.dir h.x h.y).2 = st.foodY) :
    Logic st samples =
      placeFood
        { st with
          head := ⟨(candidate st.dir h.x h.y).1, (candidate st.dir h.x h.y).2⟩ :: st.head
          score := wrapInt32 (st.score + 10)
          level :=
            if wrapInt32 (st.score + 10) % 50 = 0 then wrapInt32 (st.level + 1) else st.level }
        samples := by
  unfold Logic
  rw [if_neg hdir]
  simp only [hhead] at hfree ⊢
  rw [if_neg (by simp [hfree]), if_pos hfood]
  split_ifs <;> rfl

theorem Logic_move_eq (st : State) (h : Node) (t : List Node) (samples : List (Nat × Nat))
    (hhead : st.head = h :: t) (hdir : st.dir ≠ .STOP)
    (hfree : isOnSnake st.head (candidate st.dir h.x h.y).1 (candidate st.dir h.x h.y).2 = false)
    (hfood : ¬ ((candidate st.dir h.x h.y).1 = st.foodX ∧ (candidate st.dir h.x h.y).2 = st.foodY)) :
    Logic st samples =
      .returned
        { st with
          head := ⟨(candidate st.dir h.x h.y).1, (candidate st.dir h.x h.y).2⟩ :: st.head.dropLast }
        samples := by
  unfold Logic
  rw [if_neg hdir]
  simp only [hhead] at hfree ⊢
  rw [if_neg (by simp [hfree]), if_neg hfood, removeTail_cons_cons]

theorem InputGood_ite (st : State) (c : Prop) [Decidable c] (a b : Option (State × List Char))
    (ha : InputGood st a) (hb : InputGood st b) : InputGood st (if c then a else b) := by
  by_cases hc : c
  · rw [if_pos hc]; exact ha
  · rw [if_neg hc]; exact hb

theorem InputGood_same (st : State) (rest : List Char) : InputGood st (some (st, rest)) := by
  intro st1 rest1 h
  simp only [Option.some.injEq, Prod.mk.injEq] at h
  obtain ⟨rfl, -⟩ := h
  exact ⟨st.dir, st.gameOver, rfl, Or.inl rfl⟩

theorem InputGood_none (st : State) : InputGood st none := by
  intro st1 rest1 h
  exact absurd h (by simp)

theorem InputGood_quit (st : State) (rest : List Char) :
    InputGood st (some ({ st with gameOver := true }, rest)) := by
  intro st1 rest1 h
  simp only [Option.some.injEq, Prod.mk.injEq] at h
  obtain ⟨rfl, -⟩ := h
  exact ⟨st.dir, true, rfl, Or.inl rfl⟩

theorem InputGood_turn (st : State) (c : Prop) [Decidable c] (d : Direction) (hd : d ≠ .STOP)
    (rest : List Char) :
    InputGood st (some (if c then { st with dir := d } else st, rest)) := by
  intro st1 rest1 h
  simp only [Option.some.injEq, Prod.mk.injEq] at h
  obtain ⟨rfl, -⟩ := h
  by_cases hc : c
  · rw [if_pos hc]; exact ⟨d, st.gameOver, rfl, Or.inr hd⟩
  · rw [if_neg hc]; exact ⟨st.dir, st.gameOver, rfl, Or.inl rfl⟩

theorem Input_good (st : State) (stdin : List Char) : InputGood st (Input st stdin) := by
  unfold Input
  cases stdin with
  | nil => exact InputGood_same st []
  | cons ch rest =>
    dsimp only
    refine InputGood_ite _ _ _ _ (InputGood_turn _ _ _ (by decide) _) ?_
    refine InputGood_ite _ _ _ _ (InputGood_turn _ _ _ (by decide) _) ?_
    refine InputGood_ite _ _ _ _ (InputGood_turn _ _ _ (by decide) _) ?_
    refine InputGood_ite _ _ _ _ (InputGood_turn _ _ _ (by decide) _) ?_
    refine InputGood_ite _ _ _ _ (InputGood_quit _ _) ?_
    refine InputGood_ite _ _ _ _ ?_ (InputGood_same _ _)
    cases rest with
    | nil => exact InputGood_same st []
    | cons ch2 rest2 =>
      dsimp only
      refine InputGood_ite _ _ _ _ ?_ (InputGood_same _ _)
      cases rest2 with
      | nil => exact InputGood_none st
      | cons ch3 rest3 =>
        dsimp only
        refine InputGood_ite _ _ _ _ (InputGood_turn _ _ _ (by decide) _) ?_
        refine InputGood_ite _ _ _ _ (InputGood_turn _ _ _ (by decide) _) ?_
        refine InputGood_ite _ _ _ _ (InputGood_turn _ _ _ (by decide) _) ?_
        refine InputGood_ite _ _ _ _ (InputGood_turn _ _ _ (by decide) _) ?_
        exact InputGood_same _ _

theorem Input_eq (st : State) (stdin : List Char) (st1 : State) (rest : List Char)
    (h : Input st stdin = some (st1, rest)) :
    ∃ d g, st1 = { st with dir := d, gameOver := g } ∧ (d = st.dir ∨ d ≠ .STOP) :=
  Input_good st stdin st1 rest h

theorem length_le_of_nodup_inGrid (l : List Node) (hn : l.Nodup)
    (hg : ∀ n ∈ l, inGrid n.x n.y) : l.length ≤ 400 := by
  have h1 : l.toFinset ⊆
      ((Finset.Icc (0 : Int) 19) ×ˢ (Finset.Icc (0 : Int) 19)).image
        (fun p => (⟨p.1, p.2⟩ : Node)) := by
    intro n hmem
    rw [List.mem_toFinset] at hmem
    obtain ⟨h0, h1, h2, h3⟩ := hg n hmem
    unfold WIDTH at h1
    unfold HEIGHT at h3
    simp only [Finset.mem_image, Finset.mem_product, Finset.mem_Icc, Prod.exists]
    exact ⟨n.x, n.y, ⟨⟨h0, by omega⟩, ⟨h2, by omega⟩⟩, rfl⟩
  have h2 := Finset.card_le_card h1
  rw [List.toFinset_card_of_nodup hn] at h2
  have h3 : (((Finset.Icc (0 : Int) 19) ×ˢ (Finset.Icc (0 : Int) 19)).image
        (fun p => (⟨p.1, p.2⟩ : Node))).card ≤ 400 := by
    refine le_trans Finset.card_image_le ?_
    have h20 : (Finset.Icc (0 : Int) 19).card = 20 := by
      rw [Int.card_Icc]
      rfl
    rw [Finset.card_product, h20]
  omega

/-! ## The invariant holds in every reachable state -/

theorem Inv_setup (prev : State) (samples : List (Nat × Nat)) (st : State)
    (rest : List (Nat × Nat)) (h : Setup prev samples = .returned st rest) : Inv st := by
  unfold Setup at h
  obtain ⟨⟨hh, hs, hl, hd, -, -⟩, hgrid, hfree, -⟩ := placeFood_returned _ _ _ _ h
  simp only at hh hs hl hd
  refine ⟨?_, ?_, ?_, ?_, ?_, ?_, hgrid, hfree⟩
  · rw [hh]; simp
  · rw [hh]; simp
  · intro n hn
    rw [hh] at hn
    simp only [List.mem_singleton] at hn
    subst hn
    unfold inGrid WIDTH HEIGHT
    decide
  · rw [hh, hs]; simp
  · rw [hl, hs]; rfl
  · rw [hd]; decide

theorem Inv_input (st : State) (stdin : List Char) (st1 : State) (rest : List Char)
    (hinv : Inv st) (h : Input st stdin = some (st1, rest)) : Inv st1 := by
  obtain ⟨d, g, rfl, hd⟩ := Input_eq st stdin st1 rest h
  refine ⟨hinv.nonempty, hinv.nodup, hinv.cells, hinv.score_eq, hinv.level_eq, ?_,
    hinv.food_grid, hinv.food_free⟩
  rcases hd with hd | hd
  · simp only [hd]; exact hinv.dir_ne
  · exact hd

theorem Inv_length_le (st : State) (hinv : Inv st) : st.head.length ≤ 400 :=
  length_le_of_nodup_inGrid st.head hinv.nodup hinv.cells

theorem Inv_logic (st : State) (samples : List (Nat × Nat)) (st1 : State)
    (rest : List (Nat × Nat)) (hinv : Inv st) (h : Logic st samples = .returned st1 rest) :
    Inv st1 := by
  obtain ⟨hd, t, hhead⟩ := List.exists_cons_of_ne_nil hinv.nonempty
  have hdir := hinv.dir_ne
  have hcg := candidate_inGrid st.dir hd.x hd.y
  by_cases hon : isOnSnake st.head (candidate st.dir hd.x hd.y).1 (candidate st.dir hd.x hd.y).2 = true
  · rw [Logic_blocked_eq st hd t samples hhead hdir hon] at h
    simp only [Result.returned.injEq] at h
    obtain ⟨rfl, -⟩ := h
    exact ⟨hinv.nonempty, hinv.nodup, hinv.cells, hinv.score_eq, hinv.level_eq, hinv.dir_ne,
      hinv.food_grid, hinv.food_free⟩
  · have hfree : isOnSnake st.head (candidate st.dir hd.x hd.y).1 (candidate st.dir hd.x hd.y).2
        = false := by simpa using hon
    have hnot := (isOnSnake_eq_false_iff _ _ _).1 hfree
    by_cases hfood : (candidate st.dir hd.x hd.y).1 = st.foodX ∧
        (candidate st.dir hd.x hd.y).2 = st.foodY
    · rw [Logic_eat_eq st hd t samples hhead hdir hfree hfood] at h
      obtain ⟨⟨hh, hs, hl, hd1, -, -⟩, hgrid, hfree1, -⟩ := placeFood_returned _ _ _ _ h
      simp only at hh hs hl hd1
      have hnodup : (st1.head).Nodup := by
        rw [hh]; exact List.nodup_cons.2 ⟨hnot, hinv.nodup⟩
      have hcells : ∀ n ∈ st1.head, inGrid n.x n.y := by
        intro n hn
        rw [hh] at hn
        rcases List.mem_cons.1 hn with rfl | hn
        · exact hcg
        · exact hinv.cells n hn
      have hlen := length_le_of_nodup_inGrid st1.head hnodup hcells
      have hlen1 : st1.head.length = st.head.length + 1 := by rw [hh]; simp
      have hsc := hinv.score_eq
      have hlv := hinv.level_eq
      have hpos : 0 < st.head.length := List.length_pos.2 hinv.nonempty
      have hw : wrapInt32 (st.score + 10) = st.score + 10 :=
        wrapInt32_eq _ (by omega) (by omega)
      have hw2 : wrapInt32 (st.level + 1) = st.level + 1 :=
        wrapInt32_eq _ (by omega) (by omega)
      rw [hw, hw2] at hl
      rw [hw] at hs
      refine ⟨?_, hnodup, hcells, ?_, ?_, ?_, hgrid, hfree1⟩
      · rw [hh]; simp
      · rw [hs, hlen1, hsc]; push_cast; ring
      · rw [hl, hs]
        split_ifs with h50 <;> omega
      · rw [hd1]; exact hdir
    · rw [Logic_move_eq st hd t samples hhead hdir hfree hfood] at h
      simp only [Result.returned.injEq] at h
      obtain ⟨rfl, -⟩ := h
      have hsub : st.head.dropLast.Sublist st.head := List.dropLast_sublist _
      have hnot1 : (⟨(candidate st.dir hd.x hd.y).1, (candidate st.dir hd.x hd.y).2⟩ : Node) ∉
          st.head.dropLast := fun hm => hnot (hsub.subset hm)
      have hpos : 0 < st.head.length := List.length_pos.2 hinv.nonempty
      refine ⟨by simp, ?_, ?_, ?_, hinv.level_eq, hinv.dir_ne, hinv.food_grid, ?_⟩
      · exact List.nodup_cons.2 ⟨hnot1, hinv.nodup.sublist hsub⟩
      · intro n hn
        rcases List.mem_cons.1 hn with rfl | hn
        · exact hcg
        · exact hinv.cells n (hsub.subset hn)
      · have hsc := hinv.score_eq
        simp only [List.length_cons, List.length_dropLast]
        rw [hsc]
        have : ((st.head.length - 1 + 1 : Nat) : Int) = (st.head.length : Int) := by omega
        rw [this]
      · rw [isOnSnake_eq_false_iff]
        have hf := (isOnSnake_eq_false_iff _ _ _).1 hinv.food_free
        intro hm
        rcases List.mem_cons.1 hm with heq | hm
        · simp only [Node.mk.injEq] at heq
          exact hfood ⟨heq.1.symm, heq.2.symm⟩
        · exact hf (hsub.subset hm)

theorem Reachable_inv (st : State) (h : Reachable st) : Inv st := by
  induction h with
  | setup prev samples st rest h => exact Inv_setup prev samples st rest h
  | input st stdin st1 rest _ h ih => exact Inv_input st stdin st1 rest ih h
  | logic st samples st1 rest _ h ih => exact Inv_logic st samples st1 rest ih h

/-! ## The round loop only visits reachable states -/

theorem inputPolls_reachable (n : Nat) :
    ∀ (st : State) (stdin : List Char) (st1 : State) (rest : List Char),
      Reachable st → inputPolls n st stdin = some (st1, rest) → Reachable st1 := by
  induction n with
  | zero =>
    intro st stdin st1 rest hr h
    simp only [inputPolls, Option.some.injEq, Prod.mk.injEq] at h
    obtain ⟨rfl, -⟩ := h
    exact hr
  | succ n ih =>
    intro st stdin st1 rest hr h
    simp only [inputPolls] at h
    cases hin : Input st stdin with
    | none => rw [hin] at h; simp at h
    | some r =>
      obtain ⟨st2, rest2⟩ := r
      rw [hin] at h
      exact ih st2 rest2 st1 rest (Reachable.input st stdin st2 rest2 hr hin) h

theorem roundLoop_reachable (ticks : List (List Char)) :
    ∀ (st : State) (pending : List Char) (samples : List (Nat × Nat)) (st1 : State)
      (rest : List (Nat × Nat)),
      Reachable st → roundLoop ticks st pending samples = some (.returned st1 rest) →
        Reachable st1 := by
  induction ticks with
  | nil =>
    intro st pending samples st1 rest hr h
    simp only [roundLoop, Option.some.injEq, Result.returned.injEq] at h
    obtain ⟨rfl, -⟩ := h
    exact hr
  | cons keys more ih =>
    intro st pending samples st1 rest hr h
    simp only [roundLoop] at h
    by_cases hg : st.gameOver = true
    · rw [if_pos hg] at h
      simp only [Option.some.injEq, Result.returned.injEq] at h
      obtain ⟨rfl, -⟩ := h
      exact hr
    · rw [if_neg hg] at h
      unfold roundIteration at h
      cases hp : inputPolls 10 st (pending ++ keys) with
      | none => rw [hp] at h; simp at h
      | some r =>
        obtain ⟨st2, left⟩ := r
        rw [hp] at h
        dsimp only at h
        have hr2 := inputPolls_reachable 10 st (pending ++ keys) st2 left hr hp
        cases hl : Logic st2 samples with
        | returned st3 rest3 =>
          rw [hl] at h
          exact ih st3 left rest3 st1 rest (Reachable.logic st2 samples st3 rest3 hr2 hl) h
        | looping st3 => rw [hl] at h; simp at h
        | nullDeref => rw [hl] at h; simp at h

theorem playRound_reachable (prev : State) (ticks : List (List Char))
    (samples : List (Nat × Nat)) (st : State) (rest : List (Nat × Nat))
    (h : playRound prev ticks samples = some (.returned st rest)) : Reachable st := by
  unfold playRound at h
  cases hs : Setup prev samples with
  | returned st0 rest0 =>
    rw [hs] at h
    exact roundLoop_reachable ticks st0 [] rest0 st rest
      (Reachable.setup prev samples st0 rest0 hs) h
  | looping st0 => rw [hs] at h; simp at h
  | nullDeref => rw [hs] at h; simp at h

/-! ## Lemmas for the claims on the score, the pointers and the full grid -/

theorem eatsFood_eq_true_iff (st : State) (x y : Int) :
    eatsFood st x y = true ↔ isOnSnake st.head x y = false ∧ x = st.foodX ∧ y = st.foodY := by
  unfold eatsFood
  cases isOnSnake st.head x y <;> simp

theorem inputPolls_nil (n : Nat) : ∀ st : State, inputPolls n st [] = some (st, []) := by
  induction n with
  | zero => intro st; rfl
  | succ n ih => intro st; simp only [inputPolls, Input, ih]

/-- What `Logic` leaves in a state that satisfies the invariant: the snake is
`hd :: t`, no null pointer is dereferenced, and the globals after the call obey
the score and level rule. -/
theorem Logic_score_level (st : State) (hinv : Inv st) :
    ∃ hd t, st.head = hd :: t ∧ ∀ samples, ∃ st1, (Logic st samples).globals = some st1 ∧
      (if eatsFood st (candidate st.dir hd.x hd.y).1 (candidate st.dir hd.x hd.y).2 = true then
        st1.score = st.score + 10 ∧
          st1.level = (if st1.score % 50 = 0 then st.level + 1 else st.level)
      else st1.score = st.score ∧ st1.level = st.level) ∧
      st.level ≤ st1.level := by
  obtain ⟨hd, t, hhead⟩ := List.exists_cons_of_ne_nil hinv.nonempty
  refine ⟨hd, t, hhead, ?_⟩
  intro samples
  have hdir := hinv.dir_ne
  have hcg := candidate_inGrid st.dir hd.x hd.y
  by_cases hon : isOnSnake st.head (candidate st.dir hd.x hd.y).1 (candidate st.dir hd.x hd.y).2 = true
  · rw [Logic_blocked_eq st hd t samples hhead hdir hon]
    have he : ¬ eatsFood st (candidate st.dir hd.x hd.y).1 (candidate st.dir hd.x hd.y).2 = true := by
      rw [eatsFood_eq_true_iff, hon]
      simp
    exact ⟨_, rfl, by rw [if_neg he]; exact ⟨rfl, rfl⟩, le_refl _⟩
  · have hfree : isOnSnake st.head (candidate st.dir hd.x hd.y).1 (candidate st.dir hd.x hd.y).2
        = false := by simpa using hon
    have hnot := (isOnSnake_eq_false_iff _ _ _).1 hfree
    by_cases hfood : (candidate st.dir hd.x hd.y).1 = st.foodX ∧
        (candidate st.dir hd.x hd.y).2 = st.foodY
    · have he : eatsFood st (candidate st.dir hd.x hd.y).1 (candidate st.dir hd.x hd.y).2 = true :=
        (eatsFood_eq_true_iff _ _ _).2 ⟨hfree, hfood⟩
      rw [Logic_eat_eq st hd t samples hhead hdir hfree hfood]
      obtain ⟨st1, h1, hh, hs, hl, -, -, -⟩ := placeFood_globals samples
        { st with
          head := ⟨(candidate st.dir hd.x hd.y).1, (candidate st.dir hd.x hd.y).2⟩ :: st.head
          score := wrapInt32 (st.score + 10)
          level :=
            if wrapInt32 (st.score + 10) % 50 = 0 then wrapInt32 (st.level + 1) else st.level }
      simp only at hh hs hl
      have hnodup : (st1.head).Nodup := by
        rw [hh]; exact List.nodup_cons.2 ⟨hnot, hinv.nodup⟩
      have hcells : ∀ n ∈ st1.head, inGrid n.x n.y := by
        intro n hn
        rw [hh] at hn
        rcases List.mem_cons.1 hn with rfl | hn
        · exact hcg
        · exact hinv.cells n hn
      have hlen := length_le_of_nodup_inGrid st1.head hnodup hcells
      have hlen1 : st1.head.length = st.head.length + 1 := by rw [hh]; simp
      have hsc := hinv.score_eq
      have hlv := hinv.level_eq
      have hpos : 0 < st.head.length := List.length_pos.2 hinv.nonempty
      have hw : wrapInt32 (st.score + 10) = st.score + 10 :=
        wrapInt32_eq _ (by omega) (by omega)
      have hw2 : wrapInt32 (st.level + 1) = st.level + 1 :=
        wrapInt32_eq _ (by omega) (by omega)
      rw [hw, hw2] at hl
      rw [hw] at hs
      refine ⟨st1, h1, ?_, ?_⟩
      · rw [if_pos he]
        refine ⟨hs, ?_⟩
        rw [hl, hs]
      · rw [hl]
        split_ifs <;> omega
    · have he : ¬ eatsFood st (candidate st.dir hd.x hd.y).1 (candidate st.dir hd.x hd.y).2 = true := by
        rw [eatsFood_eq_true_iff]
        exact fun h3 => hfood h3.2
      rw [Logic_move_eq st hd t samples hhead hdir hfree hfood]
      exact ⟨_, rfl, by rw [if_neg he]; exact ⟨rfl, rfl⟩, le_refl _⟩

theorem toUseconds_of_nonneg (v : Int) (h0 : 0 ≤ v) (h1 : v < 4294967296) :
    (toUseconds v : Int) = v := by
  unfold toUseconds
  omega

/-! ## The round along the path through all cells -/

theorem map_range_succ {α : Type} (f : Nat → α) (a m : Nat) :
    (List.range (m + 1)).map (fun i => f (i + a)) =
      f a :: (List.range m).map (fun i => f (i + (a + 1))) := by
  rw [List.range_succ_eq_map, List.map_cons, List.map_map]
  refine congrArg₂ _ (by rw [Nat.zero_add]) ?_
  apply List.map_congr_left
  intro i _
  simp only [Function.comp, Nat.succ_eq_add_one]
  congr 1
  omega

theorem pathNode_inj (j k : Nat) (hj : j < 400) (hk : k < 400) (h : pathNode j = pathNode k) :
    j = k := by
  simp only [pathNode, pathCell, Node.mk.injEq] at h
  omega

theorem mem_pathSnake (k : Nat) (n : Node) :
    n ∈ pathSnake k ↔ ∃ j, j ≤ k ∧ n = pathNode j := by
  induction k with
  | zero =>
    simp only [pathSnake, List.mem_singleton]
    constructor
    · intro h; exact ⟨0, le_refl _, h⟩
    · rintro ⟨j, hj, rfl⟩
      have : j = 0 := by omega
      rw [this]
  | succ k ih =>
    simp only [pathSnake, List.mem_cons, ih]
    constructor
    · rintro (h | ⟨j, hj, h⟩)
      · exact ⟨k + 1, le_refl _, h⟩
      · exact ⟨j, by omega, h⟩
    · rintro ⟨j, hj, h⟩
      by_cases hjk : j = k + 1
      · left; rw [h, hjk]
      · right; exact ⟨j, by omega, h⟩

theorem pathSnake_length (k : Nat) : (pathSnake k).length = k + 1 := by
  induction k with
  | zero => rfl
  | succ k ih => simp only [pathSnake, List.length_cons, ih]

theorem pathSnake_eq_cons (k : Nat) : ∃ t, pathSnake k = pathNode k :: t := by
  cases k with
  | zero => exact ⟨[], rfl⟩
  | succ k => exact ⟨pathSnake k, rfl⟩

theorem pathNode_off_snake (k j : Nat) (hk : k < j) (hj : j < 400) :
    isOnSnake (pathSnake k) (pathNode j).x (pathNode j).y = false := by
  rw [isOnSnake_eq_false_iff]
  intro hm
  obtain ⟨i, hi, he⟩ := (mem_pathSnake k _).1 hm
  have := pathNode_inj j i hj (by omega) he
  omega

theorem pathDir_ne_STOP (k : Nat) : pathDir k ≠ .STOP := by
  unfold pathDir
  split_ifs <;> decide

theorem candidate_path (k : Nat) (hk : k + 1 < 400) :
    candidate (pathDir (k + 1)) (pathNode k).x (pathNode k).y =
      ((pathNode (k + 1)).x, (pathNode (k + 1)).y) := by
  unfold pathDir
  by_cases h : (k + 1) % 20 = 0
  · rw [if_pos ⟨h, Nat.succ_pos k⟩]
    simp only [candidate, wrapInt32, pathNode, pathCell, WIDTH, HEIGHT, Prod.mk.injEq]
    constructor <;> split_ifs <;> omega
  · rw [if_neg (fun h2 => h h2.1)]
    simp only [candidate, wrapInt32, pathNode, pathCell, WIDTH, HEIGHT, Prod.mk.injEq]
    constructor <;> split_ifs <;> omega

theorem Input_key_s (st : State) (rest : List Char) :
    Input st ('s' :: rest) = some (if st.dir ≠ .UP then { st with dir := .DOWN } else st, rest) := by
  rfl

theorem Input_key_d (st : State) (rest : List Char) :
    Input st ('d' :: rest) = some (if st.dir ≠ .LEFT then { st with dir := .RIGHT } else st, rest) := by
  rfl

theorem inputPolls_succ_of_Input (n : Nat) (st st1 : State) (stdin : List Char)
    (h : Input st stdin = some (st1, [])) : inputPolls (n + 1) st stdin = some (st1, []) := by
  simp only [inputPolls, h, inputPolls_nil]

theorem inputPolls_path (k : Nat) :
    inputPolls 10 (pathState k) (pathKey (k + 1)) =
      some ({ pathState k with dir := pathDir (k + 1) }, []) := by
  unfold pathKey
  by_cases h0 : (k + 1) % 20 = 0
  · have hk : pathDir k = .RIGHT := by
      unfold pathDir
      rw [if_neg (by omega)]
    have hk1 : pathDir (k + 1) = .DOWN := by
      unfold pathDir
      rw [if_pos ⟨h0, Nat.succ_pos k⟩]
    rw [if_pos h0, hk1]
    apply inputPolls_succ_of_Input
    have hd : (pathState k).dir = .RIGHT := hk
    rw [Input_key_s, if_pos (by rw [hd]; decide)]
  · rw [if_neg h0]
    by_cases h1 : (k + 1) % 20 = 1 ∧ 1 < k + 1
    · have hk : pathDir k = .DOWN := by
        unfold pathDir
        rw [if_pos (by omega)]
      have hk1 : pathDir (k + 1) = .RIGHT := by
        unfold pathDir
        rw [if_neg (by omega)]
      rw [if_pos h1, hk1]
      apply inputPolls_succ_of_Input
      have hd : (pathState k).dir = .DOWN := hk
      rw [Input_key_d, if_pos (by rw [hd]; decide)]
    · have hk : pathDir k = .RIGHT := by
        unfold pathDir
        rw [if_neg (by omega)]
      have hk1 : pathDir (k + 1) = .RIGHT := by
        unfold pathDir
        rw [if_neg (by omega)]
      rw [if_neg h1, inputPolls_nil, hk1]
      simp only [pathState, hk]

theorem placeFood_cons_free (st : State) (p : Nat × Nat) (rest : List (Nat × Nat))
    (h : isOnSnake st.head ((p.1 : Int) % WIDTH) ((p.2 : Int) % HEIGHT) = false) :
    placeFood st (p :: rest) =
      .returned { st with foodX := (p.1 : Int) % WIDTH, foodY := (p.2 : Int) % HEIGHT } rest := by
  obtain ⟨r1, r2⟩ := p
  simp only [placeFood]
  rw [if_neg (by rw [h]; decide)]

theorem Logic_path (k : Nat) (hk : k + 2 < 400) (rest : List (Nat × Nat)) :
    Logic { pathState k with dir := pathDir (k + 1) } (pathCell (k + 2) :: rest) =
      .returned (pathState (k + 1)) rest := by
  obtain ⟨t, ht⟩ := pathSnake_eq_cons k
  have hc := candidate_path k (by omega)
  have hfree : isOnSnake (pathSnake k) (pathNode (k + 1)).x (pathNode (k + 1)).y = false :=
    pathNode_off_snake k (k + 1) (by omega) (by omega)
  have hfree2 : isOnSnake (pathSnake (k + 1)) (pathNode (k + 2)).x (pathNode (k + 2)).y = false :=
    pathNode_off_snake (k + 1) (k + 2) (by omega) (by omega)
  rw [Logic_eat_eq { pathState k with dir := pathDir (k + 1) } (pathNode k) t _ ht
    (pathDir_ne_STOP (k + 1)) (by dsimp only; rw [hc]; exact hfree)
    (by dsimp only; rw [hc]; exact ⟨rfl, rfl⟩)]
  dsimp only
  rw [hc]
  have hx : (((pathCell (k + 2)).1 : Nat) : Int) % WIDTH = (pathNode (k + 2)).x := by
    simp only [pathNode, pathCell, WIDTH]
    omega
  have hy : (((pathCell (k + 2)).2 : Nat) : Int) % HEIGHT = (pathNode (k + 2)).y := by
    simp only [pathNode, pathCell, HEIGHT]
    omega
  have hs : (⟨(pathNode (k + 1)).x, (pathNode (k + 1)).y⟩ : Node) :: (pathState k).head
      = pathSnake (k + 1) := rfl
  rw [placeFood_cons_free _ _ _ (by dsimp only; rw [hx, hy, hs]; exact hfree2)]
  dsimp only
  rw [hx, hy, hs]
  have hw : wrapInt32 ((pathState k).score + 10) = 10 * ((k + 1 : Nat) : Int) := by
    simp only [pathState, wrapInt32]
    omega
  have hl : (if wrapInt32 ((pathState k).score + 10) % 50 = 0
      then wrapInt32 ((pathState k).level + 1) else (pathState k).level)
      = 1 + 10 * ((k + 1 : Nat) : Int) / 50 := by
    rw [hw]
    simp only [pathState, wrapInt32]
    split_ifs <;> omega
  rw [hl, hw]
  rfl

theorem roundIteration_path (k : Nat) (hk : k + 2 < 400) (rest : List (Nat × Nat)) :
    roundIteration (pathState k) (pathKey (k + 1)) (pathCell (k + 2) :: rest) =
      some (.returned (pathState (k + 1)) rest, []) := by
  unfold roundIteration
  rw [inputPolls_path]
  dsimp only
  rw [Logic_path k hk rest]

theorem roundLoop_path (m : Nat) :
    ∀ k, k + m + 1 < 400 →
      roundLoop ((List.range m).map fun i => pathKey (i + (k + 1))) (pathState k) []
          ((List.range m).map fun i => pathCell (i + (k + 2))) =
        some (.returned (pathState (k + m)) []) := by
  induction m with
  | zero => intro k _; rfl
  | succ m ih =>
    intro k hk
    rw [map_range_succ pathKey (k + 1) m, map_range_succ pathCell (k + 2) m]
    simp only [roundLoop, List.nil_append]
    rw [if_neg (by simp [pathState]), roundIteration_path k (by omega)]
    dsimp only
    have h := ih (k + 1) (by omega)
    have e : k + (m + 1) = k + 1 + m := by omega
    rw [e]
    exact h

theorem Setup_path (rest : List (Nat × Nat)) :
    Setup initial (pathCell 1 :: rest) = .returned (pathState 0) rest := by
  rfl

theorem playRound_path (m : Nat) (hm : m + 1 < 400) :
    playRound initial (pathKeys m) (pathSamples (m + 1)) = some (.returned (pathState m) []) := by
  unfold playRound pathKeys pathSamples
  rw [map_range_succ pathCell 1 m, Setup_path]
  dsimp only
  have h := roundLoop_path m 0 (by omega)
  simp only [Nat.zero_add] at h
  exact h

theorem full_grid_on_path (x y : Int) (h : inGrid x y) :
    isOnSnake (pathSnake 399) x y = true := by
  obtain ⟨hx0, hx1, hy0, hy1⟩ := h
  unfold WIDTH at hx1
  unfold HEIGHT at hy1
  obtain ⟨xn, rfl⟩ := Int.eq_ofNat_of_zero_le hx0
  obtain ⟨yn, rfl⟩ := Int.eq_ofNat_of_zero_le hy0
  have hxn : xn < 20 := by omega
  have hyn : yn < 20 := by omega
  rw [isOnSnake_eq_true_iff, mem_pathSnake]
  have hr : (yn + 15) % 20 < 20 := Nat.mod_lt _ (by decide)
  have hi : (xn + (yn + 15) % 20 + 10) % 20 < 20 := Nat.mod_lt _ (by decide)
  have h1 : (20 * ((yn + 15) % 20) + (xn + (yn + 15) % 20 + 10) % 20) / 20 = (yn + 15) % 20 := by
    omega
  have h2 : (20 * ((yn + 15) % 20) + (xn + (yn + 15) % 20 + 10) % 20) % 20
      = (xn + (yn + 15) % 20 + 10) % 20 := by
    omega
  refine ⟨20 * ((yn + 15) % 20) + (xn + (yn + 15) % 20 + 10) % 20, by omega, ?_⟩
  simp only [pathNode, pathCell, Node.mk.injEq, h1, h2]
  constructor
  · have : (30 - (yn + 15) % 20 + (xn + (yn + 15) % 20 + 10) % 20) % 20 = xn := by omega
    rw [this]
  · have : (5 + (yn + 15) % 20) % 20 = yn := by omega
    rw [this]

/-- The pass of the round loop after 398 moves along the path: `Logic` moves
onto the last free cell, and `placeFood` finds every cell on the snake. -/
theorem roundIteration_full (samples : List (Nat × Nat)) :
    ∃ st1, roundIteration (pathState 398) [] samples = some (.looping st1, []) ∧
      st1.head.length = 400 ∧ ∀ x y, inGrid x y → isOnSnake st1.head x y = true := by
  obtain ⟨t, ht⟩ := pathSnake_eq_cons 398
  have hc := candidate_path 398 (by decide)
  have hd : pathDir (398 + 1) = (pathState 398).dir := by decide
  rw [hd] at hc
  have hfree : isOnSnake (pathSnake 398) (pathNode 399).x (pathNode 399).y = false :=
    pathNode_off_snake 398 399 (by decide) (by decide)
  have hlogic := Logic_eat_eq (pathState 398) (pathNode 398) t samples ht (by decide)
    (by rw [hc]; exact hfree) (by rw [hc]; exact ⟨rfl, rfl⟩)
  rw [hc] at hlogic
  obtain ⟨st1, h1, hh, -⟩ := placeFood_full samples
    { pathState 398 with
      head := ⟨(pathNode 399).x, (pathNode 399).y⟩ :: (pathState 398).head
      score := wrapInt32 ((pathState 398).score + 10)
      level :=
        if wrapInt32 ((pathState 398).score + 10) % 50 = 0
        then wrapInt32 ((pathState 398).level + 1) else (pathState 398).level }
    full_grid_on_path
  refine ⟨st1, ?_, ?_, ?_⟩
  · unfold roundIteration
    rw [inputPolls_nil]
    dsimp only
    rw [hlogic]
    exact congrArg (fun r => some (r, ([] : List Char))) h1
  · rw [hh]
    exact pathSnake_length 399
  · rw [hh]
    exact full_grid_on_path

/-! ## The claims -/

/-- C1. No-self-overlap invariant: in every state reachable from `Setup` by calls
of `Input` and of `Logic` (whatever the keys, the directions and the food
positions), no two nodes of the snake hold the same `(x, y)`. -/
theorem no_self_overlap (st : State) (h : Reachable st) :
    st.head.Pairwise (fun a b => ¬ (a.x = b.x ∧ a.y = b.y)) := by
  have hn : st.head.Pairwise (fun a b => a ≠ b) := (Reachable_inv st h).nodup
  refine hn.imp ?_
  intro a b hab hxy
  apply hab
  cases a
  cases b
  simp only [Node.mk.injEq]
  exact hxy

/-- The state `afterMeal` (snake `[(11,5),(10,5)]`) is reachable and its two nodes
hold different positions. -/
theorem no_self_overlap_witness :
    Reachable afterMeal ∧ afterMeal.head.Pairwise (fun a b => ¬ (a.x = b.x ∧ a.y = b.y)) :=
  have hr : Reachable afterMeal :=
    Reachable.logic afterSetup [(12, 5)] afterMeal []
      (Reachable.setup initial [(11, 5)] afterSetup [] (by decide)) (by decide)
  ⟨hr, no_self_overlap afterMeal hr⟩

/-- C2. Growth law: for a snake `h :: t`, a direction other than `STOP` and any
food position, when the candidate head `c` that `Logic` computes is not on the
snake: if `c` is the food position, the globals `Logic` leaves hold the snake
`c :: h :: t` (one node more), and `Logic` returns as soon as one of the random
samples is a cell off that snake; otherwise `Logic` returns with the snake `c`
followed by `h :: t` without its last node (same length), reading no sample. -/
theorem Logic_grows_or_shifts (st : State) (h : Node) (t : List Node)
    (samples : List (Nat × Nat)) (hhead : st.head = h :: t) (hdir : st.dir ≠ .STOP)
    (hfree : isOnSnake st.head (candidate st.dir h.x h.y).1 (candidate st.dir h.x h.y).2 = false) :
    ((candidate st.dir h.x h.y).1 = st.foodX ∧ (candidate st.dir h.x h.y).2 = st.foodY →
      (∃ st1, (Logic st samples).globals = some st1 ∧
        st1.head = ⟨(candidate st.dir h.x h.y).1, (candidate st.dir h.x h.y).2⟩ :: st.head ∧
        st1.head.length = st.head.length + 1) ∧
      ((∃ q ∈ samples,
          isOnSnake (⟨(candidate st.dir h.x h.y).1, (candidate st.dir h.x h.y).2⟩ :: st.head)
            ((q.1 : Int) % WIDTH) ((q.2 : Int) % HEIGHT) = false) →
        ∃ st1 rest, Logic st samples = .returned st1 rest)) ∧
    (¬ ((candidate st.dir h.x h.y).1 = st.foodX ∧ (candidate st.dir h.x h.y).2 = st.foodY) →
      ∃ st1, Logic st samples = .returned st1 samples ∧
        st1.head =
          ⟨(candidate st.dir h.x h.y).1, (candidate st.dir h.x h.y).2⟩ :: st.head.dropLast ∧
        st1.head.length = st.head.length) := by
  constructor
  · intro hfood
    rw [Logic_eat_eq st h t samples hhead hdir hfree hfood]
    constructor
    · obtain ⟨st1, h1, hh, -⟩ := placeFood_globals samples _
      refine ⟨st1, h1, hh, ?_⟩
      rw [hh]
      simp
    · intro hq
      exact placeFood_of_free samples _ hq
  · intro hfood
    rw [Logic_move_eq st h t samples hhead hdir hfree hfood]
    refine ⟨_, rfl, rfl, ?_⟩
    simp only [List.length_cons, List.length_dropLast, hhead]
    omega

/-- The scenario of the claim: snake `[(10,5)]`, direction RIGHT, food `(11,5)`:
`Logic` leaves the snake `[(11,5),(10,5)]`. -/
theorem Logic_grows_or_shifts_witness :
    ∃ st1, (Logic afterSetup [(12, 5)]).globals = some st1 ∧
      st1.head = [⟨11, 5⟩, ⟨10, 5⟩] ∧ st1.head.length = 2 :=
  ((Logic_grows_or_shifts afterSetup ⟨10, 5⟩ [] [(12, 5)] rfl (by decide) (by decide)).1
    ⟨by decide, by decide⟩).1

/-- C3. For a snake `h :: t` and a direction other than `STOP`, if the candidate
head is already on the snake then `Logic` returns with `gameOver` set and every
other global (the snake, the food position, score, level) as it was; it reads no
random sample. -/
theorem Logic_blocked_keeps_snake (st : State) (h : Node) (t : List Node) (samples : List (Nat × Nat))
    (hhead : st.head = h :: t) (hdir : st.dir ≠ .STOP)
    (hon : isOnSnake st.head (candidate st.dir h.x h.y).1 (candidate st.dir h.x h.y).2 = true) :
    ∃ st1, Logic st samples = .returned st1 samples ∧ st1.gameOver = true ∧
      st1.head = st.head ∧ st1.foodX = st.foodX ∧ st1.foodY = st.foodY ∧
      st1.score = st.score ∧ st1.level = st.level ∧ st1 = { st with gameOver := true } :=
  ⟨{ st with gameOver := true }, Logic_blocked_eq st h t samples hhead hdir hon,
    rfl, rfl, rfl, rfl, rfl, rfl, rfl⟩

/-- The snake `[(6,5),(5,5)]` moving LEFT: the candidate `(5,5)` is on the snake,
`Logic` sets `gameOver` and the snake stays `[(6,5),(5,5)]`. -/
theorem Logic_blocked_keeps_snake_witness :
    ∃ st1, Logic facingItself [] = .returned st1 [] ∧ st1.gameOver = true ∧
      st1.head = [⟨6, 5⟩, ⟨5, 5⟩] ∧ st1.foodX = 0 ∧ st1.foodY = 0 ∧
      st1.score = 10 ∧ st1.level = 1 ∧ st1 = { facingItself with gameOver := true } :=
  Logic_blocked_keeps_snake facingItself ⟨6, 5⟩ [⟨5, 5⟩] [] rfl (by decide) (by decide)

/-- C6. Wrap invariant: for a head position `(x, y)` of the grid and a direction
other than `STOP`, the candidate position that `Logic` computes lies in the grid
and is the neighbour of `(x, y)` on the torus in that direction. -/
theorem candidate_wraps (x y : Int) (dir : Direction) (hx0 : 0 ≤ x) (hx1 : x < WIDTH)
    (hy0 : 0 ≤ y) (hy1 : y < HEIGHT) (hdir : dir ≠ .STOP) :
    inGrid (candidate dir x y).1 (candidate dir x y).2 ∧
      candidate dir x y = torusNeighbour dir x y := by
  refine ⟨candidate_inGrid dir x y, ?_⟩
  unfold WIDTH at hx1
  unfold HEIGHT at hy1
  cases dir
  · exact absurd rfl hdir
  all_goals
    simp only [candidate, torusNeighbour, wrapInt32, WIDTH, HEIGHT, Prod.mk.injEq]
    constructor <;> split_ifs <;> omega

/-- The scenario of the claim: the head `(19,5)` moving RIGHT gives `(0,5)`. -/
theorem candidate_wraps_witness :
    inGrid (candidate .RIGHT 19 5).1 (candidate .RIGHT 19 5).2 ∧
      candidate .RIGHT 19 5 = (0, 5) :=
  candidate_wraps 19 5 .RIGHT (by decide) (by decide) (by decide) (by decide) (by decide)

/-- C4. Score/level law: in every reachable state `level = 1 + score / 50`;
`Input` changes neither score nor level; and whatever `Logic` does from a
reachable state (return, or stay in the food loop), a move that eats the food
raises score by exactly 10 and every other move leaves it unchanged, level goes
up by exactly 1 when the move eats and the new score is a multiple of 50 and is
unchanged otherwise, so it never goes down. -/
theorem score_level_law (st : State) (h : Reachable st) :
    st.level = 1 + st.score / 50 ∧
    (∀ stdin st1 rest, Input st stdin = some (st1, rest) →
      st1.score = st.score ∧ st1.level = st.level) ∧
    ∃ hd t, st.head = hd :: t ∧ ∀ samples, ∃ st1, (Logic st samples).globals = some st1 ∧
      (if eatsFood st (candidate st.dir hd.x hd.y).1 (candidate st.dir hd.x hd.y).2 = true then
        st1.score = st.score + 10 ∧
          st1.level = (if st1.score % 50 = 0 then st.level + 1 else st.level)
      else st1.score = st.score ∧ st1.level = st.level) ∧
      st.level ≤ st1.level := by
  have hinv := Reachable_inv st h
  refine ⟨hinv.level_eq, ?_, Logic_score_level st hinv⟩
  intro stdin st1 rest hin
  obtain ⟨d, g, rfl, -⟩ := Input_eq st stdin st1 rest hin
  exact ⟨rfl, rfl⟩

/-- After five meals the state `afterFiveMeals` is reached: score 50, level 2. -/
theorem score_level_law_witness :
    Reachable afterFiveMeals ∧ afterFiveMeals.score = 50 ∧ afterFiveMeals.level = 2 ∧
      afterFiveMeals.level = 1 + afterFiveMeals.score / 50 :=
  have hr : Reachable afterFiveMeals :=
    playRound_reachable initial (pathKeys 5) (pathSamples 6) afterFiveMeals [] (by decide)
  ⟨hr, rfl, rfl, (score_level_law afterFiveMeals hr).1⟩

/-- C5. Food invariant: for every state of the globals and every list of random
samples, when `placeFood` returns the food position lies in the grid and is not
on the snake (which `placeFood` left as it was), and it is the cell of the first
sample that is off the snake; `placeFood` does return when one of the samples is
a cell off the snake. The same holds when `Setup` returns, and when a call of
`Logic` that eats the food returns, where the snake already has the new head. -/
theorem placeFood_off_snake (st : State) (samples : List (Nat × Nat)) :
    (∀ st1 rest, placeFood st samples = .returned st1 rest →
      inGrid st1.foodX st1.foodY ∧ isOnSnake st1.head st1.foodX st1.foodY = false ∧
      st1.head = st.head ∧
      ∃ pre r1 r2, samples = pre ++ (r1, r2) :: rest ∧
        (∀ q ∈ pre, isOnSnake st.head ((q.1 : Int) % WIDTH) ((q.2 : Int) % HEIGHT) = true) ∧
        st1.foodX = (r1 : Int) % WIDTH ∧ st1.foodY = (r2 : Int) % HEIGHT) ∧
    ((∃ q ∈ samples, isOnSnake st.head ((q.1 : Int) % WIDTH) ((q.2 : Int) % HEIGHT) = false) →
      ∃ st1 rest, placeFood st samples = .returned st1 rest) ∧
    (∀ st1 rest, Setup st samples = .returned st1 rest →
      inGrid st1.foodX st1.foodY ∧ isOnSnake st1.head st1.foodX st1.foodY = false) ∧
    (∀ hd t st1 rest, st.head = hd :: t → st.dir ≠ .STOP →
      eatsFood st (candidate st.dir hd.x hd.y).1 (candidate st.dir hd.x hd.y).2 = true →
      Logic st samples = .returned st1 rest →
        st1.head = ⟨(candidate st.dir hd.x hd.y).1, (candidate st.dir hd.x hd.y).2⟩ :: st.head ∧
        inGrid st1.foodX st1.foodY ∧ isOnSnake st1.head st1.foodX st1.foodY = false) := by
  refine ⟨?_, placeFood_of_free samples st, ?_, ?_⟩
  · intro st1 rest h
    obtain ⟨hsame, hgrid, hfree, hpre⟩ := placeFood_returned samples st st1 rest h
    exact ⟨hgrid, hfree, hsame.1, hpre⟩
  · intro st1 rest h
    unfold Setup at h
    obtain ⟨-, hgrid, hfree, -⟩ := placeFood_returned samples _ st1 rest h
    exact ⟨hgrid, hfree⟩
  · intro hd t st1 rest hhead hdir heat h
    obtain ⟨hfree, hfood⟩ := (eatsFood_eq_true_iff _ _ _).1 heat
    rw [Logic_eat_eq st hd t samples hhead hdir hfree hfood] at h
    obtain ⟨hsame, hgrid, hfree1, -⟩ := placeFood_returned samples _ st1 rest h
    exact ⟨hsame.1, hgrid, hfree1⟩

/-- With the snake `[(11,5),(10,5)]` and the samples `(10,5)`, `(31,25)`, `(7,7)`:
the first sample is on the snake, the second gives the food cell `(11,5)`, which
is on the snake too, the third gives `(7,7)`, where `placeFood` returns. -/
theorem placeFood_off_snake_witness :
    ∃ st1, placeFood afterMeal [(10, 5), (31, 25), (7, 7), (1, 1)] = .returned st1 [(1, 1)] ∧
      st1.foodX = 7 ∧ st1.foodY = 7 ∧ inGrid st1.foodX st1.foodY ∧
      isOnSnake st1.head st1.foodX st1.foodY = false :=
  have h : placeFood afterMeal [(10, 5), (31, 25), (7, 7), (1, 1)] =
      .returned { afterMeal with foodX := 7, foodY := 7 } [(1, 1)] := by decide
  have h2 := (placeFood_off_snake afterMeal [(10, 5), (31, 25), (7, 7), (1, 1)]).1 _ _ h
  ⟨_, h, rfl, rfl, h2.1, h2.2.1⟩

/-- C10. In every reachable state the snake is not empty, so `head` is not null
when `Logic` reads `head->x`; no call of `Logic` dereferences a null pointer; and
for every new head `c`, the tail scan over `c` followed by the snake ends with
`prev` not null and leaves the list without exactly its last node. -/
theorem pointers_safe (st : State) (h : Reachable st) :
    st.head ≠ [] ∧ (∀ samples, Logic st samples ≠ .nullDeref) ∧
      ∀ c : Node, removeTail (c :: st.head) = some ((c :: st.head).dropLast) ∧
        ((c :: st.head).dropLast).length + 1 = (c :: st.head).length := by
  have hinv := Reachable_inv st h
  obtain ⟨hd, t, hhead⟩ := List.exists_cons_of_ne_nil hinv.nonempty
  refine ⟨hinv.nonempty, ?_, ?_⟩
  · intro samples hnull
    obtain ⟨hd1, t1, -, hl⟩ := Logic_score_level st hinv
    obtain ⟨st1, h1, -⟩ := hl samples
    rw [hnull] at h1
    simp [Result.globals] at h1
  · intro c
    rw [hhead, removeTail_cons_cons]
    simp

/-- In the reachable state `afterMeal` the snake is `[(11,5),(10,5)]`, and the
tail scan over `(12,5)` followed by it gives `[(12,5),(11,5)]`. -/
theorem pointers_safe_witness :
    Reachable afterMeal ∧ afterMeal.head ≠ [] ∧
      removeTail (⟨12, 5⟩ :: afterMeal.head) = some [⟨12, 5⟩, ⟨11, 5⟩] :=
  have hr : Reachable afterMeal :=
    Reachable.logic afterSetup [(12, 5)] afterMeal []
      (Reachable.setup initial [(11, 5)] afterSetup [] (by decide)) (by decide)
  ⟨hr, (pointers_safe afterMeal hr).1, ((pointers_safe afterMeal hr).2.2 ⟨12, 5⟩).1⟩

/-- C7, evaluated on the code. `Setup` leaves `dir = RIGHT`; in the first pass of
the round loop no key is read and `Logic` moves RIGHT (eating the food, the
snake becomes `[(11,5),(10,5)]`); in the second pass the ten polls read `w` (UP
is taken, since `dir` is not DOWN) and then `a` (LEFT is taken, since `dir` is
now UP), so `Logic` moves LEFT, the opposite of the move before, finds the
candidate `(10,5)` on the snake and sets `gameOver`. -/
theorem reversal_within_one_pass :
    Setup initial [(11, 5)] = .returned afterSetup [] ∧
    inputPolls 10 afterSetup [] = some (afterSetup, []) ∧
    afterSetup.dir = .RIGHT ∧
    Logic afterSetup [(12, 5)] = .returned afterMeal [] ∧
    inputPolls 10 afterMeal ['w', 'a'] = some (afterKeys, []) ∧
    afterKeys.dir = .LEFT ∧
    Logic afterKeys [] = .returned { afterKeys with gameOver := true } [] ∧
    roundLoop [[], ['w', 'a']] afterSetup [] [(12, 5)] =
      some (.returned { afterKeys with gameOver := true } []) := by
  decide

/-- C8 as stated fails. The round along the path reaches, after 205 meals, a
state with difficulty NORMAL and level 42; there the `int` argument of the last
`usleep` is -10000, which `usleep` receives as 4294957296 microseconds, so the
pass asks for 4295057296 microseconds of sleep and not for the 90 ms that
`500 - (42 - 1) * 10` gives (the ten input polls alone ask for 100 ms). The
same happens on HARD from level 22 on. -/
theorem tick_interval_counterexample :
    playRound initial (pathKeys 205) (pathSamples 206) =
      some (.returned (pathState 205) []) ∧
    (pathState 205).difficulty = .NORMAL ∧ (pathState 205).level = 42 ∧
    usleepArgument .NORMAL 42 = -10000 ∧
    roundSleepMicros .NORMAL 42 = 4295057296 ∧
    10 * toUseconds 10000 = 100000 ∧
    ¬ ((roundSleepMicros .NORMAL 42 : Int) = (baseMillis .NORMAL - (42 - 1) * 10) * 1000) ∧
    usleepArgument .HARD 22 = -10000 ∧
    ¬ ((roundSleepMicros .HARD 22 : Int) = (baseMillis .HARD - (22 - 1) * 10) * 1000) :=
  ⟨playRound_path 205 (by decide), rfl, by decide, by decide, by decide, by decide, by decide,
    by decide, by decide⟩

/-- C8, amended. For every difficulty and every level from 1 on for which the
`int` argument `baseSpeed - (level - 1) * 10000 - 100000` of the last `usleep` is
not negative (level at most 71 on EASY, 41 on NORMAL, 21 on HARD), the sleep one
pass of the round loop asks for totals `base - (level - 1) * 10` milliseconds,
with base 800 for EASY, 500 for NORMAL and 300 for HARD. -/
theorem tick_interval (d : Difficulty) (level : Int) (h1 : 1 ≤ level)
    (h2 : 0 ≤ baseSpeed d - (level - 1) * 10000 - 100000) :
    (roundSleepMicros d level : Int) = (baseMillis d - (level - 1) * 10) * 1000 := by
  have hb : baseSpeed d ≤ 800000 := by cases d <;> simp [baseSpeed]
  have hm : baseSpeed d = baseMillis d * 1000 := by cases d <;> simp [baseSpeed, baseMillis]
  have hs : speedIncrease level = (level - 1) * 10000 := by
    unfold speedIncrease
    rw [wrapInt32_eq (level - 1) (by omega) (by omega), wrapInt32_eq _ (by omega) (by omega)]
  have ha : usleepArgument d level = baseSpeed d - (level - 1) * 10000 - 100000 := by
    unfold usleepArgument
    rw [hs, wrapInt32_eq (baseSpeed d - (level - 1) * 10000) (by omega) (by omega),
      wrapInt32_eq _ (by omega) (by omega)]
  unfold roundSleepMicros
  push_cast
  rw [ha, toUseconds_of_nonneg 10000 (by omega) (by omega), toUseconds_of_nonneg _ h2 (by omega)]
  omega

/-- The scenario of the claim: EASY at level 3 gives 780 ms. -/
theorem tick_interval_witness :
    (roundSleepMicros .EASY 3 : Int) = (baseMillis .EASY - (3 - 1) * 10) * 1000 ∧
      roundSleepMicros .EASY 3 = 780000 :=
  ⟨tick_interval .EASY 3 (by decide) (by decide), by decide⟩

/-- C9, evaluated on the code. The round in which the snake follows the path
through all cells and the food always appears on the next cell of the path
returns, after 398 passes of the loop, with a reachable state in which the round
is not over and the snake has 399 nodes. In the next pass `Logic` eats the food
on the last free cell and calls `placeFood` with a snake of 400 nodes that
covers every cell of the grid: whatever the random samples, the loop of
`placeFood` does not end. -/
theorem grid_fills_up :
    ∃ st, playRound initial (pathKeys 398) (pathSamples 399) = some (.returned st []) ∧
      Reachable st ∧ st.gameOver = false ∧ st.head.length = 399 ∧
      ∀ samples, ∃ st1, roundIteration st [] samples = some (.looping st1, []) ∧
        st1.head.length = 400 ∧ ∀ x y, inGrid x y → isOnSnake st1.head x y = true :=
  have hplay : playRound initial (pathKeys 398) (pathSamples 399) =
      some (.returned (pathState 398) []) := playRound_path 398 (by decide)
  ⟨pathState 398, hplay, playRound_reachable _ _ _ _ _ hplay, rfl, pathSnake_length 398,
    roundIteration_full⟩

end Snake
